import Mathlib

/-!
# Verification of the Swift-domain signature parser, symbol table and module index

Shallow embedding of `swift_domain/swift.py` (the `anarchy_sphinx` repository).
Strings are modelled as `List Char` internally (`String` at the interfaces);
Python exceptions (`ValueError` from tuple unpacking, etc.) are modelled by
`Option`-returning functions where `none` means the Python code raises.
-/

namespace Swift

/-! ## Python string primitives -/

/-- Characters stripped by Python's `str.strip()` (and matched by `\s`). -/
def isPySpace (c : Char) : Bool :=
  c = ' ' ∨ c = '\t' ∨ c = '\n' ∨ c = '\r' ∨ c = '\x0b' ∨ c = '\x0c'

/-- Python `str.strip()`. -/
def pyStrip (s : List Char) : List Char :=
  ((s.dropWhile isPySpace).reverse.dropWhile isPySpace).reverse

/-- Pack a character list back into a `String`. -/
def strOf (l : List Char) : String := ⟨l⟩

/-- Python `s.split(sep, 1)`: split at the first occurrence of `sep`.
`none` when `sep` does not occur (Python returns a one-element list). -/
def splitFirst (sep : Char) : List Char → Option (List Char × List Char)
  | [] => none
  | c :: cs =>
    if c = sep then some ([], cs)
    else (splitFirst sep cs).map (fun p => (c :: p.1, p.2))

/-- Python `s.rsplit(sep, 1)` / `s.rfind(sep)`: split at the last occurrence. -/
def rfindSplit (sep : Char) (s : List Char) : Option (List Char × List Char) :=
  match splitFirst sep s.reverse with
  | none => none
  | some (a, b) => some (b.reverse, a.reverse)

/-- Python `s.split(sep)` (no maxsplit): always returns at least one chunk. -/
def splitAllChar (sep : Char) : List Char → List (List Char)
  | [] => [[]]
  | c :: cs =>
    let r := splitAllChar sep cs
    if c = sep then [] :: r
    else
      match r with
      | [] => [[c]]
      | h :: t => (c :: h) :: t

/-- Index of the first occurrence of a character, as Python `str.find` minus
the `-1` convention. -/
def pyFindCharN : List Char → Char → Option Nat
  | [], _ => none
  | c :: cs, t => if c = t then some 0 else (pyFindCharN cs t).map (· + 1)

/-- Python `str.find`: `-1` when absent. -/
def pyFindChar (s : List Char) (c : Char) : Int :=
  match pyFindCharN s c with
  | some i => (i : Int)
  | none => -1

/-- Clamp a Python slice index (negative indices count from the end). -/
def pyIdx (len : Nat) (i : Int) : Nat :=
  if i < 0 then
    if (len : Int) + i < 0 then 0 else ((len : Int) + i).toNat
  else
    min i.toNat len

/-- Python `s[:i]`. -/
def pySliceTo (s : List Char) (i : Int) : List Char := s.take (pyIdx s.length i)

/-- Python `s[i:]`. -/
def pySliceFrom (s : List Char) (i : Int) : List Char := s.drop (pyIdx s.length i)

/-- Python `str.find` for a multi-character needle: index of the first
occurrence of `pat` as a contiguous substring. -/
def findSubstr (pat : List Char) : List Char → Option Nat
  | [] => if pat.isEmpty then some 0 else none
  | c :: cs =>
    if pat.isPrefixOf (c :: cs) then some 0
    else (findSubstr pat cs).map (· + 1)

/-! ## `SwiftClassmember._parse_parameter_list` -/

/-- One parsed parameter (`name` is the declared/external name,
`variable_name` the local one). -/
structure Parameter where
  name : String
  variable_name : String
  type : String
  default : Option String
deriving Repr, DecidableEq

/-- The three independent nesting counters `parens = {'[]': 0, '()': 0, '<>': 0}`. -/
structure Parens where
  square : Int
  round : Int
  angle : Int
deriving Repr, DecidableEq

def Parens.zero : Parens := ⟨0, 0, 0⟩

/-- One step of the counter updates in the scanning loop. -/
def Parens.update (p : Parens) (c : Char) : Parens :=
  let p := if c = '[' then { p with square := p.square + 1 } else p
  let p := if c = ']' then { p with square := p.square - 1 } else p
  let p := if c = '(' then { p with round := p.round + 1 } else p
  let p := if c = ')' then { p with round := p.round - 1 } else p
  let p := if c = '<' then { p with angle := p.angle + 1 } else p
  if c = '>' then { p with angle := p.angle - 1 } else p

/-- The splitting loop of `_parse_parameter_list`: a `,` ends the current
chunk only when all three counters (updated for the current character
first, as in the source) read zero. -/
def splitTopLevelAux : List Char → Parens → List Char → List (List Char)
  | [], _, acc => [acc.reverse]
  | c :: cs, p, acc =>
    let p' := p.update c
    if c = ',' ∧ p' = Parens.zero then
      acc.reverse :: splitTopLevelAux cs p' []
    else
      splitTopLevelAux cs p' (c :: acc)

/-- Raw top-level comma split (chunks not yet stripped). -/
def splitTopLevelRaw (s : List Char) : List (List Char) :=
  splitTopLevelAux s Parens.zero []

/-- The chunk list as the source builds it (each chunk `.strip()`-ed). -/
def splitTopLevel (s : List Char) : List (List Char) :=
  (splitTopLevelRaw s).map pyStrip

/-- The counter state right after the scanning loop has processed character
`i` (the source updates the counters for the current character before
testing them). -/
def countersAfter (s : List Char) (i : Nat) : Parens :=
  (s.take (i + 1)).foldl Parens.update Parens.zero

/-- The number of positions of `s` holding a comma at which all three
nesting counters read zero. -/
def topLevelCommaCount (s : List Char) : Nat :=
  ((List.range s.length).filter
    (fun i => decide (s[i]? = some ',' ∧ countersAfter s i = Parens.zero))).length

/-- Parse one comma-delimited chunk.  `none` models the `ValueError` that
`name, rest = parameter.split(':', 1)` raises when the chunk has no `:`. -/
def parseParameter (chunk : List Char) : Option Parameter :=
  match splitFirst ':' chunk with
  | none => none
  | some (n, r) =>
    let name0 := pyStrip n
    let rest := pyStrip r
    let nv : List Char × List Char :=
      match splitFirst ' ' name0 with
      | some (a, b) => (a, b)
      | none => (name0, name0)
    let td : List Char × Option (List Char) :=
      match rfindSplit '=' rest with
      | some (t, d) => (pyStrip t, some (pyStrip d))
      | none => (rest, none)
    some ⟨strOf nv.1, strOf nv.2, strOf td.1, td.2.map strOf⟩

/-- Parse every chunk; `none` as soon as one chunk raises. -/
def parseChunks : List (List Char) → Option (List Parameter)
  | [] => some []
  | c :: cs =>
    match parseParameter c, parseChunks cs with
    | some p, some ps => some (p :: ps)
    | _, _ => none

/-- `SwiftClassmember._parse_parameter_list`. -/
def parseParameterList (s : List Char) : Option (List Parameter) :=
  parseChunks (splitTopLevel s)

/-! ## `SwiftClassmember.handle_signature` -/

/-- The directive kinds routed to `SwiftClassmember`. -/
inductive CallableKind
  | function
  | method
  | class_method
  | static_method
  | init
deriving Repr, DecidableEq

/-- The parameter-list extraction loop: scan `rest`, tracking `(`/`)` depth,
and when the depth reads zero after a character, cut out `rest[1:i]` and
`rest[i+1:]`.  `none` when the loop never fires (unclosed paren or empty). -/
def extractParamsAux (rest : List Char) : List Char → Nat → Int → Option (List Char × List Char)
  | [], _, _ => none
  | c :: cs, i, depth =>
    let depth' := if c = '(' then depth + 1 else if c = ')' then depth - 1 else depth
    if depth' = 0 then some ((rest.take i).drop 1, rest.drop (i + 1))
    else extractParamsAux rest cs (i + 1) depth'

def extractParams (rest : List Char) : Option (List Char × List Char) :=
  extractParamsAux rest rest 0 0

/-- The name/generics scanning part of `SwiftClassmember.handle_signature`. -/
structure MemberParse where
  split_point : Int
  generics : Option (List Char)
  method_name : List Char
  parameter_list : Option (List Char)
  tail : List Char
deriving Repr, DecidableEq

def memberParse (sig : List Char) : MemberParse :=
  let first_anglebracket := pyFindChar sig '<'
  let first_paren := pyFindChar sig '('
  let split_point : Int :=
    if 0 ≤ first_anglebracket ∧ first_anglebracket < first_paren then pyFindChar sig '>' + 1
    else first_paren
  let generics : Option (List Char) :=
    if 0 ≤ first_anglebracket then
      let sp := pySliceFrom sig first_anglebracket
      some (pySliceTo sp (pyFindChar sp '>' + 1))
    else none
  let method_name0 := pySliceTo sig split_point
  let method_name :=
    match pyFindCharN method_name0 '<' with
    | some k => method_name0.take k
    | none => method_name0
  let rest0 := pySliceFrom sig split_point
  match extractParams rest0 with
  | some (pl, r) => ⟨split_point, generics, method_name, some pl, r⟩
  | none => ⟨split_point, generics, method_name, none, rest0⟩

/-- `parameters` as computed by the source: parse the extracted parameter
list when present and non-empty, else the empty list. -/
def memberParams (sig : List Char) : Option (List Parameter) :=
  match (memberParse sig).parameter_list with
  | some pl => if 0 < pl.length then parseParameterList pl else some []
  | none => some []

/-- One parameter's contribution to the canonical signature string. -/
def renderParamSig (p : Parameter) : String :=
  if p.name = p.variable_name then p.name ++ ":"
  else p.name ++ " " ++ p.variable_name ++ ":"

/-- The `container + "."` qualification prefix. -/
def containerDot : Option String → String
  | some c => c ++ "."
  | none => ""

/-- The structured result of `SwiftClassmember.handle_signature`
(`title`/`signature` are the two returned strings; they are equal). -/
structure CallableSignature where
  method_name : String
  generics : Option String
  parameters : List Parameter
  throws : Bool
  return_type : Option String
  title : String
  signature : String
deriving Repr, DecidableEq

def mkCallable (objtype : CallableKind) (container : Option String) (sig : List Char)
    (parameters : List Parameter) : CallableSignature :=
  let mp := memberParse sig
  let throws := (findSubstr ("throws".data) mp.tail).isSome
  let return_type : Option (List Char) :=
    (findSubstr ("->".data) mp.tail).map (fun arrow => pyStrip (mp.tail.drop (arrow + 2)))
  let nm : String := if objtype = CallableKind.init then "init" else strOf mp.method_name
  let signature := (parameters.foldl (fun acc p => acc ++ renderParamSig p) (nm ++ "(")) ++ ")"
  let prefixed : String → String := fun s =>
    match container with
    | some c => c ++ "." ++ s
    | none => s
  ⟨strOf mp.method_name, mp.generics.map strOf, parameters, throws, return_type.map strOf,
   prefixed signature, prefixed signature⟩

/-- `SwiftClassmember.handle_signature`; `none` models the `ValueError`
propagated out of `_parse_parameter_list`. -/
def memberHandleSignature (objtype : CallableKind) (container : Option String)
    (sig : List Char) : Option CallableSignature :=
  (memberParams sig).map (mkCallable objtype container sig)

/-! ## `SwiftClass.handle_signature` -/

/-- The structured result of `SwiftClass.handle_signature`. -/
structure ClassSignature where
  class_name : String
  generic_type : Option String
  super_classes : Option (List String)
  type_constraint : Option String
  fullname : String
  add_to_index : Bool
deriving Repr, DecidableEq

/-- `class_name, generic_type = parts[0].split('<')` with
`generic_type = generic_type[:-1]`; `none` models the `ValueError` raised
when the head contains more than one `<`. -/
def classGenericSplit (head : List Char) : Option (List Char × Option (List Char)) :=
  if head.contains '<' then
    match splitAllChar '<' head with
    | [a, b] => some (a, some b.dropLast)
    | _ => none
  else some (head, none)

/-- The `p == 'where'` scan over the space/tab-split head: yields the type
constraint so far, the truncated name, and what is left of `parts` after the
`parts.pop()` (the popped element is the tail when present, else the head
itself). -/
def classWhereStep (class_name0 : List Char) (tail : Option (List Char)) :
    Option (List Char) × List Char × Option (List Char) :=
  let class_parts : Option (List (List Char)) :=
    if class_name0.contains ' ' then some (splitAllChar ' ' class_name0)
    else if class_name0.contains '\t' then some (splitAllChar '\t' class_name0)
    else none
  match class_parts with
  | some cps =>
    match cps.findIdx? (fun q => q = ("where".data)) with
    | some k =>
      (some (List.intercalate [' '] (cps.drop k) ++
              (':' :: ' ' :: (match tail with | some t => t | none => class_name0))),
       List.intercalate [' '] (cps.take k), none)
    | none => (none, class_name0, tail)
  | none => (none, class_name0, tail)

/-- The superclass-list block: split the part after `:` on every `,`, strip,
and truncate at a chunk that *equals* the token `where`. -/
def classSuper (tail1 : Option (List Char)) (tc1 : Option (List Char)) :
    Option (List (List Char)) × Option (List Char) :=
  match tail1 with
  | none => (none, tc1)
  | some t =>
    let sups := (splitAllChar ',' t).map pyStrip
    match sups.findIdx? (fun q => q = ("where".data)) with
    | some k => (some (sups.take k), some (List.intercalate [' '] (sups.drop k)))
    | none => (some sups, tc1)

def classCore (objtype : String) (container : Option String)
    (class_name0 : List Char) (generic_type : Option (List Char))
    (tail : Option (List Char)) : ClassSignature :=
  let step := classWhereStep class_name0 tail
  let class_name1 := step.2.1
  let class_name2 :=
    if class_name1.contains '.' then (splitAllChar '.' class_name1).getLastD []
    else class_name1
  let superTc := classSuper step.2.2 step.1
  let qualified : String :=
    match container with
    | some c => c ++ "." ++ strOf class_name2
    | none => strOf class_name2
  ⟨strOf class_name2, generic_type.map strOf, superTc.1.map (·.map strOf),
   superTc.2.map strOf, objtype ++ " " ++ qualified,
   if objtype = "extension" ∧ (superTc.1 = none ∨ superTc.1 = some []) then false
   else true⟩

/-- `SwiftClass.handle_signature` (used for class/struct/enum/protocol/
extension/default_impl, with `objtype` the directive name). -/
def classHandleSignature (objtype : String) (container : Option String)
    (sig : List Char) : Option ClassSignature :=
  let parts : List Char × Option (List Char) :=
    match splitFirst ':' sig with
    | none => (pyStrip sig, none)
    | some (a, b) => (pyStrip a, some (pyStrip b))
  (classGenericSplit parts.1).map (fun cg => classCore objtype container cg.1 cg.2 parts.2)

/-! ## `var_sig` and `SwiftClassIvar.handle_signature` -/

/-- `[a-zA-Z_]` -/
def isIdStart (c : Char) : Bool :=
  ('a' ≤ c ∧ c ≤ 'z') ∨ ('A' ≤ c ∧ c ≤ 'Z') ∨ c = '_'

/-- `[a-zA-Z0-9_]` -/
def isIdChar (c : Char) : Bool := isIdStart c ∨ ('0' ≤ c ∧ c ≤ '9')

/-- `[a-zA-Z_[(]`, the first character of the `type` group. -/
def isTypeStart (c : Char) : Bool := isIdStart c ∨ c = '[' ∨ c = '('

/-- `[a-zA-Z0-9_<>[\]()?!:, \t-\.]`, the continuation characters of the
`type` group (`\t-\.` is the character range U+0009 – U+002E). -/
def isTypeChar (c : Char) : Bool :=
  isIdChar c ∨ c = '<' ∨ c = '>' ∨ c = '[' ∨ c = ']' ∨ c = '(' ∨ c = ')' ∨
  c = '?' ∨ c = '!' ∨ c = ':' ∨ c = ',' ∨ c = ' ' ∨ ('\x09' ≤ c ∧ c ≤ '.')

/-- The groups captured by `var_sig`. -/
structure VarMatch where
  name : String
  type : Option String
  value : Option String
deriving Repr, DecidableEq

/-- The optional group `(\s*:\s*(?P<type>[a-zA-Z_[(][...]*))?`: on failure the
group matches nothing and scanning resumes at the original position. -/
def matchTypeGroup (s : List Char) : Option (List Char) × List Char :=
  match s.dropWhile isPySpace with
  | ':' :: u =>
    match u.dropWhile isPySpace with
    | d :: ds =>
      if isTypeStart d then (some (d :: ds.takeWhile isTypeChar), ds.dropWhile isTypeChar)
      else (none, s)
    | [] => (none, s)
  | _ => (none, s)

/-- The optional group `(\s*=\s*(?P<value>[^{]*))?`. -/
def matchValueGroup (s : List Char) : Option (List Char) × List Char :=
  match s.dropWhile isPySpace with
  | '=' :: u =>
    let v := u.dropWhile isPySpace
    (some (v.takeWhile (fun c => c ≠ '\x7b')), v.dropWhile (fun c => c ≠ '\x7b'))
  | _ => (none, s)

/-- `var_sig.match(sig)`: anchored match of
`^\s*(?P<name>[a-zA-Z_][a-zA-Z0-9_]*\b)(\s*:\s*(?P<type>...))?(\s*=\s*(?P<value>[^{]*))?`.
Because nothing mandatory follows the optional groups, the regex engine
never needs cross-group backtracking, so a deterministic greedy scan is
faithful.  `none` models a failed match (the source warns and returns). -/
def varSigMatch (sig : List Char) : Option VarMatch :=
  match sig.dropWhile isPySpace with
  | [] => none
  | c :: cs =>
    if isIdStart c then
      let nameChars := c :: cs.takeWhile isIdChar
      let s2 := cs.dropWhile isIdChar
      let tg := matchTypeGroup s2
      let vg := matchValueGroup tg.2
      some ⟨strOf nameChars, tg.1.map strOf, vg.1.map strOf⟩
    else none

/-- Lines 435–439 of the source: the rendered default-value annotation.
The first branch fires when the captured value is truthy (non-empty); the
`elif match['value']:` branch (the `' = { ... }'` placeholder) can only
fire when the value is truthy *and* the first test failed — impossible. -/
def renderVarDefault (value : Option String) : Option String :=
  match value with
  | some v =>
    if v ≠ "" ∧ 0 < v.length then some (" = " ++ strOf (pyStrip v.data))
    else if v ≠ "" then some " = \x7b ... \x7d"
    else none
  | none => none

/-- The structured result of `SwiftClassIvar.handle_signature`. -/
structure VarSignature where
  name : String
  typeAnn : Option String
  defaultAnn : Option String
  fullname : String
deriving Repr, DecidableEq

def varHandleSignature (container : Option String) (sig : List Char) :
    Option VarSignature :=
  (varSigMatch sig).map (fun m =>
    let name := strOf (pyStrip m.name.data)
    let qualified : String :=
      match container with
      | some c => c ++ "." ++ name
      | none => name
    ⟨name, m.type.map (fun t => strOf (pyStrip t.data)), renderVarDefault m.value, qualified⟩)

/-! ## `SwiftObjectDescription.add_target_and_index` -/

/-- One value of the `objects` table: `(docname, objtype, signature)`. -/
structure ObjEntry where
  docname : String
  objtype : String
  signature : String
deriving Repr, DecidableEq

/-- Python `dict` assignment `objects[k] = v` on an insertion-ordered table. -/
def dictSet (objects : List (String × ObjEntry)) (k : String) (v : ObjEntry) :
    List (String × ObjEntry) :=
  if objects.any (fun kv => kv.1 = k) then
    objects.map (fun kv => if kv.1 = k then (k, v) else kv)
  else objects ++ [(k, v)]

def dictLookup (objects : List (String × ObjEntry)) (k : String) : Option ObjEntry :=
  (objects.find? (fun kv => kv.1 = k)).map (·.2)

structure AddTargetResult where
  objects : List (String × ObjEntry)
  warned : Bool
  warnedOther : Option String
deriving Repr, DecidableEq

/-- `add_target_and_index`: `docIds` is `self.state.document.ids` (the ids
registered so far in the *current* document); the duplicate warning names
`objects[fullname][0]`. -/
def add_target_and_index (noindex add_to_index : Bool) (docIds : List String)
    (objects : List (String × ObjEntry)) (fullname docname objtype signature : String) :
    AddTargetResult :=
  if noindex ∨ add_to_index = false then ⟨objects, false, none⟩
  else if fullname ∈ docIds then
    ⟨objects, true, (dictLookup objects fullname).map (·.docname)⟩
  else
    ⟨dictSet objects fullname ⟨docname, objtype, signature⟩, false, none⟩

/-! ## `SwiftDomain.resolve_xref` (symbol-table matching portion) -/

def type_order : List String := ["class", "struct", "enum", "protocol", "extension"]

/-- Strip one `?`/`!` suffix or one `[...]` wrapper. -/
def stripTarget (target : List Char) : List Char :=
  if target.getLast? = some '?' ∨ target.getLast? = some '!' then target.dropLast
  else if target.head? = some '[' ∧ target.getLast? = some ']' then (target.drop 1).dropLast
  else target

/-- `test_target` as computed by `resolve_xref`: after stripping one sigil,
when a `.` occurs keep `test_target[point_pos:]` — the substring *from the
first dot on, dot included*. -/
def refTestTarget (target : List Char) : List Char :=
  let t := stripTarget target
  match pyFindCharN t '.' with
  | some i => t.drop i
  | none => t

/-- The table-matching loop of `resolve_xref`: the first stored entry (in
table order) whose key equals `to + ' ' + test_target` for some kind `to`
wins.  The `swift_reserved` external-link fallback is outside this model. -/
def lookupTarget (objects : List (String × ObjEntry)) (target : String) :
    Option (String × ObjEntry) :=
  let tt := strOf (refTestTarget target.data)
  objects.find? (fun kv => type_order.any (fun knd => kv.1 = knd ++ " " ++ tt))

/-! ## `SwiftModuleIndex.generate` -/

/-- One entry of the iteration over `self.domain.data['objects']`; the
constant tuple components (`0`, the spaced `info`, `''`, `''`) are dropped. -/
structure IndexEntry where
  refname : String
  docname : String
  signature : String
deriving Repr, DecidableEq

/-- `start`: length of the kind prefix of a rendered signature (the first
`type_order` element it starts with, plus one for the space), else 0. -/
def sigStart (s : String) : Nat :=
  match type_order.find? (fun t => t.data.isPrefixOf s.data) with
  | some t => t.length + 1
  | none => 0

/-- `sigsorter`: the (not yet uppercased) character at `start`. -/
def sigChar (e : IndexEntry) : Char :=
  (e.signature.data.drop (sigStart e.signature)).headD 'a'

/-- `indexsorter`: `'{:04d}{}'.format(i, a[0])` for the first kind prefix of
the *refname*, else the refname itself. -/
def indexsorterKey (e : IndexEntry) : String :=
  match type_order.findIdx? (fun t => t.data.isPrefixOf e.refname.data) with
  | some i => "000" ++ toString i ++ e.refname
  | none => e.refname

/-- The bucketing loop: flush the current bucket when the uppercased key
character changes, then append the entry to the current bucket. -/
def groupEntries : List IndexEntry → Option Char → List IndexEntry →
    List (Option Char × List IndexEntry) → List (Option Char × List IndexEntry)
  | [], ck, cl, content => content ++ [(ck, cl)]
  | e :: es, ck, cl, content =>
    let c := (sigChar e).toUpper
    if (some c) ≠ ck then
      groupEntries es (some c) [e] (if 0 < cl.length then content ++ [(ck, cl)] else content)
    else
      groupEntries es ck (cl ++ [e]) content

/-- `SwiftModuleIndex.generate` on a snapshot of the `objects` table (in
insertion order).  Python's `sorted` is a stable sort by key; a stable
insertion sort over `key a ≤ key b` yields the identical list.  `none`
models the `IndexError` raised when some signature has no character after
its kind prefix. -/
def generate (objects : List IndexEntry) : Option (List (Option Char × List IndexEntry)) :=
  if objects.all (fun e => ¬(e.signature.data.drop (sigStart e.signature)).isEmpty) then
    let entries := List.insertionSort (fun a b => sigChar a ≤ sigChar b) objects
    let content := groupEntries entries none [] []
    some (content.map (fun b =>
      (b.1,
       List.insertionSort
         (fun a b => ¬(indexsorterKey b).data < (indexsorterKey a).data) b.2)))
  else none

/-! ## Theorems -/

/-! ### Helper lemmas about the top-level comma splitter -/

theorem splitTopLevelAux_ne_nil (cs : List Char) :
    ∀ (p : Parens) (acc : List Char), splitTopLevelAux cs p acc ≠ [] := by
  induction cs with
  | nil => intro p acc; simp [splitTopLevelAux]
  | cons c cs ih =>
    intro p acc
    simp only [splitTopLevelAux]
    split
    · simp
    · exact ih _ _

theorem intercalate_comma_cons (a : List Char) (l : List (List Char)) (hl : l ≠ []) :
    List.intercalate [','] (a :: l) = a ++ ',' :: List.intercalate [','] l := by
  cases l with
  | nil => exact absurd rfl hl
  | cons b m => simp [List.intercalate, List.intersperse]

/-- Joining the raw chunks back with commas restores the input: the splitter
deletes exactly the commas it splits at and nothing else. -/
theorem intercalate_splitTopLevelAux (cs : List Char) :
    ∀ (p : Parens) (acc : List Char),
      List.intercalate [','] (splitTopLevelAux cs p acc) = acc.reverse ++ cs := by
  induction cs with
  | nil => intro p acc; simp [splitTopLevelAux, List.intercalate]
  | cons c cs ih =>
    intro p acc
    simp only [splitTopLevelAux]
    split
    next h =>
      rw [intercalate_comma_cons _ _ (splitTopLevelAux_ne_nil cs _ []), ih _ []]
      simp [h.1]
    next _ =>
      rw [ih _ (c :: acc)]
      simp

/-- Recursive counter for the zero-counter commas, generalized over the
starting counter state. -/
def countSplitsFrom (p : Parens) : List Char → Nat
  | [] => 0
  | c :: cs =>
    (if c = ',' ∧ p.update c = Parens.zero then 1 else 0) + countSplitsFrom (p.update c) cs

theorem splitTopLevelAux_length (cs : List Char) :
    ∀ (p : Parens) (acc : List Char),
      (splitTopLevelAux cs p acc).length = countSplitsFrom p cs + 1 := by
  induction cs with
  | nil => intro p acc; simp [splitTopLevelAux, countSplitsFrom]
  | cons c cs ih =>
    intro p acc
    simp only [splitTopLevelAux, countSplitsFrom]
    split
    next h => simp [ih, h]; omega
    next h => simp [ih, h]

theorem countSplitsFrom_eq_countP (cs : List Char) :
    ∀ (p : Parens),
      countSplitsFrom p cs =
        (List.range cs.length).countP
          (fun i => decide (cs[i]? = some ',' ∧
            (cs.take (i + 1)).foldl Parens.update p = Parens.zero)) := by
  induction cs with
  | nil => intro p; simp [countSplitsFrom]
  | cons c cs ih =>
    intro p
    rw [countSplitsFrom, List.length_cons, List.range_succ_eq_map, List.countP_cons,
      List.countP_map, ih (p.update c)]
    have hps : ∀ i ∈ List.range cs.length,
        ((fun i => decide ((c :: cs)[i]? = some ',' ∧
            ((c :: cs).take (i + 1)).foldl Parens.update p = Parens.zero)) ∘ Nat.succ) i = true ↔
        (fun i => decide (cs[i]? = some ',' ∧
            (cs.take (i + 1)).foldl Parens.update (p.update c) = Parens.zero)) i = true := by
      intro i _
      simp [Function.comp, List.foldl_cons]
    rw [List.countP_congr hps]
    have h0 : (decide ((c :: cs)[0]? = some ',' ∧
        ((c :: cs).take (0 + 1)).foldl Parens.update p = Parens.zero)) =
        decide (c = ',' ∧ p.update c = Parens.zero) := by
      apply decide_eq_decide.mpr
      simp [List.foldl_cons]
    simp only [h0]
    by_cases hc : c = ',' ∧ p.update c = Parens.zero
    · rw [if_pos hc, if_pos (by simpa using hc)]
      omega
    · simp only [if_neg hc, decide_eq_false hc]
      simp

/-- The number of chunks is one more than the number of zero-counter commas. -/
theorem splitTopLevelRaw_length (s : List Char) :
    (splitTopLevelRaw s).length = topLevelCommaCount s + 1 := by
  rw [splitTopLevelRaw, splitTopLevelAux_length, topLevelCommaCount,
    ← List.countP_eq_length_filter]
  congr 1
  exact countSplitsFrom_eq_countP s Parens.zero

/-! ### Helper lemmas about chunk parsing -/

theorem splitFirst_eq_none_iff (sep : Char) (s : List Char) :
    splitFirst sep s = none ↔ sep ∉ s := by
  induction s with
  | nil => simp [splitFirst]
  | cons c cs ih =>
    simp only [splitFirst, List.mem_cons]
    by_cases h : c = sep
    · subst h; simp
    · rw [if_neg h, Option.map_eq_none', ih]
      constructor
      · intro hn hmem
        rcases hmem with rfl | hmem
        · exact h rfl
        · exact hn hmem
      · intro hn hmem; exact hn (Or.inr hmem)

theorem parseParameter_eq_none_iff (chunk : List Char) :
    parseParameter chunk = none ↔ ':' ∉ chunk := by
  rw [← splitFirst_eq_none_iff ':' chunk, parseParameter]
  cases h : splitFirst ':' chunk <;> simp

theorem parseChunks_eq_none_iff (l : List (List Char)) :
    parseChunks l = none ↔ ∃ c ∈ l, parseParameter c = none := by
  induction l with
  | nil => simp [parseChunks]
  | cons c cs ih =>
    constructor
    · intro h
      rw [parseChunks] at h
      cases hc : parseParameter c with
      | none => exact ⟨c, List.mem_cons_self c cs, hc⟩
      | some p =>
        cases hcs : parseChunks cs with
        | none =>
          obtain ⟨d, hd, hdn⟩ := ih.mp hcs
          exact ⟨d, List.mem_cons_of_mem _ hd, hdn⟩
        | some ps => rw [hc, hcs] at h; simp at h
    · rintro ⟨d, hd, hdn⟩
      rw [parseChunks]
      rcases List.mem_cons.mp hd with rfl | hd'
      · rw [hdn]
      · rw [ih.mpr ⟨d, hd', hdn⟩]
        cases parseParameter c <;> rfl

/-! ### String-append helpers -/

theorem string_join_cons (x : String) (xs : List String) :
    String.join (x :: xs) = x ++ String.join xs := by
  apply String.ext
  simp [String.join_eq, String.data_append]

theorem string_append_foldl (g : Parameter → String) (l : List Parameter) :
    ∀ init : String,
      l.foldl (fun acc p => acc ++ g p) init = init ++ String.join (l.map g) := by
  induction l with
  | nil => intro init; simp [String.join]
  | cons a l ih =>
    intro init
    rw [List.foldl_cons, ih (init ++ g a), List.map_cons, string_join_cons,
      String.append_assoc]

theorem mkCallable_parameters (objtype : CallableKind) (container : Option String)
    (sig : List Char) (ps : List Parameter) :
    (mkCallable objtype container sig ps).parameters = ps := rfl

theorem mkCallable_method_name (objtype : CallableKind) (container : Option String)
    (sig : List Char) (ps : List Parameter) :
    (mkCallable objtype container sig ps).method_name =
      strOf (memberParse sig).method_name := rfl

/-- C1: for every callable parse that returns, the canonical signature string
is the rendered name (`init` for initializers), then `(`, then for each
parameter `declared:` when the declared and local names agree and
`declared local:` when they differ, then `)` — parameter types and defaults
never appear (an enclosing container only adds a `container.` prefix). -/
theorem c1_callable_signature_rendering (objtype : CallableKind)
    (container : Option String) (sig : List Char) (r : CallableSignature)
    (h : memberHandleSignature objtype container sig = some r) :
    r.signature =
      containerDot container ++
      ((if objtype = CallableKind.init then "init" else r.method_name) ++ "(" ++
        String.join (r.parameters.map (fun p =>
          if p.name = p.variable_name then p.name ++ ":"
          else p.name ++ " " ++ p.variable_name ++ ":")) ++ ")") := by
  obtain ⟨ps, hps, hr⟩ := Option.map_eq_some'.mp h
  subst hr
  rw [mkCallable_parameters, mkCallable_method_name]
  show (mkCallable objtype container sig ps).signature = _
  simp only [mkCallable]
  have hrps : renderParamSig = (fun p : Parameter =>
      if p.name = p.variable_name then p.name ++ ":"
      else p.name ++ " " ++ p.variable_name ++ ":") := by
    funext p; rw [renderParamSig]
  cases container with
  | none =>
    show (ps.foldl (fun acc p => acc ++ renderParamSig p) _) ++ ")" = _
    rw [string_append_foldl, hrps]
    simp [containerDot, String.append_assoc]
  | some c =>
    show c ++ "." ++ ((ps.foldl (fun acc p => acc ++ renderParamSig p) _) ++ ")") = _
    rw [string_append_foldl, hrps]
    simp [containerDot, String.append_assoc]

/-- C1 (witness): the theorem applied to
`foo(x: Int, y label: String = "a")` with no enclosing container. -/
theorem c1_witness :
    (⟨"foo", none,
      [⟨"x", "x", "Int", none⟩, ⟨"y", "label", "String", some "\"a\""⟩],
      false, none, "foo(x:y label:)", "foo(x:y label:)"⟩ :
        CallableSignature).signature =
      containerDot none ++
      ((if CallableKind.function = CallableKind.init then "init"
        else (⟨"foo", none,
          [⟨"x", "x", "Int", none⟩, ⟨"y", "label", "String", some "\"a\""⟩],
          false, none, "foo(x:y label:)", "foo(x:y label:)"⟩ :
            CallableSignature).method_name) ++ "(" ++
        String.join ((⟨"foo", none,
          [⟨"x", "x", "Int", none⟩, ⟨"y", "label", "String", some "\"a\""⟩],
          false, none, "foo(x:y label:)", "foo(x:y label:)"⟩ :
            CallableSignature).parameters.map (fun p =>
          if p.name = p.variable_name then p.name ++ ":"
          else p.name ++ " " ++ p.variable_name ++ ":")) ++ ")") :=
  c1_callable_signature_rendering CallableKind.function none
    ("foo(x: Int, y label: String = \"a\")".data) _ (by decide)

/-- C2: the round-trip example parses to exactly the two claimed parameters
in source order; a comma nested in `<>` does not split; joining the raw
chunks with commas restores the input (the splitter cuts only at commas);
and the number of chunks is one more than the number of commas at which all
three independent counters read zero. -/
theorem c2_parameter_list_parsing :
    ((memberHandleSignature CallableKind.function none
        ("foo(x: Int, y label: String = \"a\")".data)).map (fun r => r.parameters) =
      some [⟨"x", "x", "Int", none⟩, ⟨"y", "label", "String", some "\"a\""⟩]) ∧
    (parseParameterList ("x: Dictionary<String, Int>, y: Bool".data) =
      some [⟨"x", "x", "Dictionary<String, Int>", none⟩, ⟨"y", "y", "Bool", none⟩]) ∧
    (∀ s : List Char, List.intercalate [','] (splitTopLevelRaw s) = s) ∧
    (∀ s : List Char, (splitTopLevelRaw s).length = topLevelCommaCount s + 1) :=
  ⟨by decide, by decide,
   fun s => by simpa [splitTopLevelRaw] using intercalate_splitTopLevelAux s Parens.zero [],
   splitTopLevelRaw_length⟩

/-- C10 (amended): the parameter-list parse raises exactly when some
top-level comma-chunk contains no `:` (so the callable parse of `"f(x)"`
raises, see the counterexample), and the class-like parse can raise as well
(a head with two `<` makes the tuple unpacking fail). -/
theorem c10_raise_behavior :
    (∀ s : List Char, parseParameterList s = none ↔ ∃ c ∈ splitTopLevel s, ':' ∉ c) ∧
    (classHandleSignature "class" none ("A<B<C: D".data) = none) := by
  constructor
  · intro s
    rw [parseParameterList, parseChunks_eq_none_iff]
    constructor
    · rintro ⟨c, hc, hcn⟩
      exact ⟨c, hc, (parseParameter_eq_none_iff c).mp hcn⟩
    · rintro ⟨c, hc, hcn⟩
      exact ⟨c, hc, (parseParameter_eq_none_iff c).mpr hcn⟩
  · decide

/-- C3 (counterexample): parsing `"MyClass<T>: Base, Proto where T: Equatable"`
does *not* yield `super_types = ["Base", "Proto"]`, and the type constraint is
absent rather than containing `"where T: Equatable"`: the `sup == 'where'`
test compares a whole comma-chunk, and `"Proto where T: Equatable"` is not
the token `"where"`. -/
theorem c3_counterexample :
    ((classHandleSignature "class" none
        ("MyClass<T>: Base, Proto where T: Equatable".data)).map
        (fun r => r.super_classes) ≠ some (some ["Base", "Proto"])) ∧
    ((classHandleSignature "class" none
        ("MyClass<T>: Base, Proto where T: Equatable".data)).map
        (fun r => r.type_constraint) = some none) :=
  ⟨by decide, by decide⟩

/-- C3 (amended): the example parse yields `name = "MyClass"`,
`generic_clause = "T"`, `super_types = ["Base", "Proto where T: Equatable"]`
and no type constraint; a `where` inside the superclass list truncates the
list and starts a constraint only when it is an entire comma-separated
element on its own, as in `"MyClass<T>: Base, where"`. -/
theorem c3_where_truncation :
    classHandleSignature "class" none
        ("MyClass<T>: Base, Proto where T: Equatable".data) =
      some ⟨"MyClass", some "T", some ["Base", "Proto where T: Equatable"], none,
            "class MyClass", true⟩ ∧
    classHandleSignature "class" none ("MyClass<T>: Base, where".data) =
      some ⟨"MyClass", some "T", some ["Base"], some "where", "class MyClass", true⟩ :=
  ⟨by decide, by decide⟩

/-- C4 (counterexample): in `"f<A<B>>(x: Int)"` a `<` occurs before the first
`(`, yet the generic clause is cut at the *first* `>` — the code records
`"<A<B>"`, not the matching-closer span `"<A<B>>"`. -/
theorem c4_counterexample :
    ((memberHandleSignature CallableKind.function none ("f<A<B>>(x: Int)".data)).map
        (fun r => r.generics) = some (some "<A<B>")) ∧
    ((memberHandleSignature CallableKind.function none ("f<A<B>>(x: Int)".data)).map
        (fun r => r.generics) ≠ some (some "<A<B>>")) :=
  ⟨by decide, by decide⟩

/-- C5 (counterexample): with the table holding exactly the key
`"class Bar"`, looking up `"Foo.Bar"` finds nothing — the code matches on
`".Bar"` (substring from the first dot, dot included), never on `"Bar"`. -/
theorem c5_counterexample :
    lookupTarget [("class Bar", ⟨"doc1", "class", "class Bar"⟩)] "Foo.Bar" = none := by
  decide

/-- C6 (counterexample): a key already present from a *different* document
(`"doc1"`) is silently overwritten by the new entry (`"doc2"`) and no
warning is emitted — the duplicate check consults the current document's
registered ids, not the symbol table. -/
theorem c6_counterexample :
    (add_target_and_index false true [] [("class Foo", ⟨"doc1", "class", "class Foo"⟩)]
        "class Foo" "doc2" "class" "class Foo").warned = false ∧
    (add_target_and_index false true [] [("class Foo", ⟨"doc1", "class", "class Foo"⟩)]
        "class Foo" "doc2" "class" "class Foo").objects =
      [("class Foo", ⟨"doc2", "class", "class Foo"⟩)] :=
  ⟨by decide, by decide⟩

/-- C10 (counterexample): parsing the callable `"f(x)"` does not return a
result: the parameter chunk `"x"` has no `:`, so
`name, rest = parameter.split(':', 1)` raises `ValueError` (modelled as
`none`). -/
theorem c10_counterexample :
    memberHandleSignature CallableKind.function none ("f(x)".data) = none := by
  decide

/-! ### C5: cross-reference lookup -/

/-- C5 (amended): lookup strips one sigil wrapper, so `"[Int]"` resolves
exactly like `"Int"`; when the remaining text contains a `.` the match key
is the substring from the first dot on, *dot included*: `"Foo.Bar"` is
looked up as `"<kind> .Bar"` (first matching table entry in insertion
order), so it matches neither `"<kind> Bar"` (see the counterexample) nor
the literal key `"<kind> Foo.Bar"`. -/
theorem c5_lookup_behavior :
    (∀ objects : List (String × ObjEntry),
        lookupTarget objects "[Int]" = lookupTarget objects "Int") ∧
    (∀ (e : ObjEntry) (objects : List (String × ObjEntry)),
        lookupTarget (("class .Bar", e) :: objects) "Foo.Bar" =
          some ("class .Bar", e)) ∧
    (∀ e : ObjEntry, lookupTarget [("class Foo.Bar", e)] "Foo.Bar" = none) := by
  refine ⟨fun objects => rfl, fun e objects => ?_, fun e => ?_⟩
  · rw [lookupTarget]
    have hp : (type_order.any fun knd =>
        decide ("class .Bar" = knd ++ " " ++ strOf (refTestTarget "Foo.Bar".data))) = true := by
      decide
    exact List.find?_cons_of_pos _ hp
  · rw [lookupTarget]
    have hp : ¬(type_order.any fun knd =>
        decide ("class Foo.Bar" = knd ++ " " ++ strOf (refTestTarget "Foo.Bar".data))) = true := by
      decide
    refine List.find?_eq_none.mpr ?_
    intro x hx
    rw [List.mem_singleton] at hx
    subst hx
    exact fun hc => hp hc

/-! ### C6: symbol-table insertion -/

theorem find?_dictSet_self (objects : List (String × ObjEntry)) (k : String)
    (v : ObjEntry) :
    List.find? (fun kv => kv.1 = k) (dictSet objects k v) = some (k, v) := by
  induction objects with
  | nil =>
    rw [dictSet, if_neg (by simp)]
    simp [List.find?]
  | cons a t ih =>
    by_cases ha : a.1 = k
    · rw [dictSet, if_pos (by simp [List.any_cons, ha]), List.map_cons, if_pos ha]
      exact List.find?_cons_of_pos _ (by simp)
    · rw [dictSet] at ih ⊢
      by_cases ht : t.any (fun kv => decide (kv.1 = k)) = true
      · rw [if_pos (by simp [List.any_cons, ha, ht]), List.map_cons, if_neg ha,
          List.find?_cons_of_neg _ (by simpa using ha)]
        rw [if_pos ht] at ih
        exact ih
      · rw [if_neg (by simp [List.any_cons, ha]; simpa using ht), List.cons_append,
          List.find?_cons_of_neg _ (by simpa using ha)]
        rw [if_neg ht] at ih
        exact ih

theorem dictLookup_dictSet_self (objects : List (String × ObjEntry)) (k : String)
    (v : ObjEntry) : dictLookup (dictSet objects k v) k = some v := by
  rw [dictLookup, find?_dictSet_self]
  rfl

/-- C6 (amended): duplicate detection keys on the current document's
registered ids, not on the symbol table.  When the key is not among the
current document's ids, the insert silently *overwrites* whatever the table
stored under that key — even an entry from a different document, so last
wins — and warns nothing; when the key is among the current document's ids,
the table is left unchanged and a warning naming the stored entry's
document is emitted. -/
theorem c6_duplicate_behavior (docIds : List String)
    (objects : List (String × ObjEntry)) (fullname docname objtype signature : String) :
    (fullname ∉ docIds →
      dictLookup (add_target_and_index false true docIds objects
          fullname docname objtype signature).objects fullname =
        some ⟨docname, objtype, signature⟩ ∧
      (add_target_and_index false true docIds objects
          fullname docname objtype signature).warned = false) ∧
    (fullname ∈ docIds →
      (add_target_and_index false true docIds objects
          fullname docname objtype signature).objects = objects ∧
      (add_target_and_index false true docIds objects
          fullname docname objtype signature).warned = true ∧
      (add_target_and_index false true docIds objects
          fullname docname objtype signature).warnedOther =
        (dictLookup objects fullname).map (fun e => e.docname)) := by
  constructor
  · intro hnot
    rw [add_target_and_index]
    simp only [Bool.false_eq_true, or_self, if_false, if_neg hnot, if_pos hnot]
    exact ⟨dictLookup_dictSet_self objects fullname _, rfl⟩
  · intro hin
    rw [add_target_and_index]
    simp only [Bool.false_eq_true, or_self, if_false, if_pos hin]
    exact ⟨rfl, rfl, rfl⟩

/-- C6 (witness): the amended theorem applied to the cross-document
duplicate of the counterexample. -/
theorem c6_witness :
    dictLookup (add_target_and_index false true []
        [("class Foo", ⟨"doc1", "class", "class Foo"⟩)]
        "class Foo" "doc2" "class" "class Foo").objects "class Foo" =
      some ⟨"doc2", "class", "class Foo"⟩ ∧
    (add_target_and_index false true []
        [("class Foo", ⟨"doc1", "class", "class Foo"⟩)]
        "class Foo" "doc2" "class" "class Foo").warned = false :=
  (c6_duplicate_behavior [] [("class Foo", ⟨"doc1", "class", "class Foo"⟩)]
    "class Foo" "doc2" "class" "class Foo").1 (by decide)

/-! ### C7: extension indexing policy -/

theorem classWhereStep_tail_none (cn : List Char) :
    (classWhereStep cn none).2.2 = none := by
  rw [classWhereStep]
  split
  · split <;> rfl
  · rfl

theorem classCore_add (objtype : String) (container : Option String)
    (cn0 : List Char) (gt : Option (List Char)) (tail : Option (List Char)) :
    (classCore objtype container cn0 gt tail).add_to_index =
      (if objtype = "extension" ∧
          ((classSuper (classWhereStep cn0 tail).2.2 (classWhereStep cn0 tail).1).1 = none ∨
           (classSuper (classWhereStep cn0 tail).2.2 (classWhereStep cn0 tail).1).1 = some [])
        then false else true) := rfl

theorem classCore_super (objtype : String) (container : Option String)
    (cn0 : List Char) (gt : Option (List Char)) (tail : Option (List Char)) :
    (classCore objtype container cn0 gt tail).super_classes =
      ((classSuper (classWhereStep cn0 tail).2.2 (classWhereStep cn0 tail).1).1).map
        (fun l => l.map strOf) := rfl

/-- C7: an `extension` whose signature has no `:` part (hence an empty
superclass list) is not indexed, an `extension` with at least one declared
conformance is indexed, and every other class-like kind is always
indexed. -/
theorem c7_extension_indexing (objtype : String) (container : Option String)
    (sig : List Char) (r : ClassSignature)
    (h : classHandleSignature objtype container sig = some r) :
    (objtype ≠ "extension" → r.add_to_index = true) ∧
    (objtype = "extension" ∧ ':' ∉ sig → r.add_to_index = false) ∧
    (objtype = "extension" →
      (r.add_to_index = true ↔ ∃ l, r.super_classes = some l ∧ l ≠ [])) := by
  simp only [classHandleSignature] at h
  obtain ⟨cg, hcg, hr⟩ := Option.map_eq_some'.mp h
  refine ⟨?_, ?_, ?_⟩
  · intro hobj
    subst hr
    rw [classCore_add, if_neg]
    intro hc
    exact hobj hc.1
  · rintro ⟨hobj, hcolon⟩
    have hsf : splitFirst ':' sig = none := (splitFirst_eq_none_iff ':' sig).mpr hcolon
    rw [hsf] at hr
    subst hr
    rw [classCore_add, classWhereStep_tail_none, if_pos]
    exact ⟨hobj, Or.inl rfl⟩
  · intro hobj
    subst hr
    rw [classCore_add, classCore_super]
    cases hsc : (classSuper (classWhereStep cg.1 _).2.2 (classWhereStep cg.1 _).1).1 with
    | none => simp [hobj]
    | some l =>
      by_cases hl : l = []
      · subst hl; simp [hobj]
      · rw [if_neg (fun hc => by
          rcases hc.2 with hc2 | hc2
          · exact Option.noConfusion hc2
          · exact hl (Option.some.injEq _ _ ▸ hc2)), Option.map_some']
        constructor
        · intro _
          exact ⟨l.map strOf, rfl, by simpa using hl⟩
        · intro _; rfl

/-- C7 (witness): the theorem applied to `extension Foo: Bar` — one
conformance, so it is indexed. -/
theorem c7_witness :
    ((⟨"Foo", none, some ["Bar"], none, "extension Foo", true⟩ :
        ClassSignature).add_to_index = true ↔
      ∃ l, (⟨"Foo", none, some ["Bar"], none, "extension Foo", true⟩ :
        ClassSignature).super_classes = some l ∧ l ≠ []) :=
  (c7_extension_indexing "extension" none ("Foo: Bar".data) _ (by decide)).2.2 rfl

/-! ### C8: the unreachable opaque-default placeholder -/

theorem matchValueGroup_fst (s : List Char) :
    (matchValueGroup s).1 = none ∨
    ∃ u : List Char,
      (matchValueGroup s).1 = some (u.takeWhile (fun c => c ≠ '\x7b')) := by
  rw [matchValueGroup]
  split
  · right; exact ⟨_, rfl⟩
  · left; rfl

theorem mem_pyStrip (c : Char) (l : List Char) (h : c ∈ pyStrip l) : c ∈ l := by
  rw [pyStrip] at h
  have h1 : c ∈ (l.dropWhile isPySpace).reverse.dropWhile isPySpace :=
    List.mem_reverse.mp h
  have h2 : c ∈ (l.dropWhile isPySpace).reverse :=
    (List.dropWhile_sublist _).mem h1
  exact (List.dropWhile_sublist _).mem (List.mem_reverse.mp h2)

theorem varSigMatch_value (sig : List Char) (m : VarMatch)
    (h : varSigMatch sig = some m) :
    m.value = none ∨ ∃ v : List Char, m.value = some (strOf v) ∧ '\x7b' ∉ v := by
  rw [varSigMatch] at h
  split at h
  · exact absurd h (by simp)
  · rename_i c cs heq
    split at h
    · have hval : m.value = ((matchValueGroup
          (matchTypeGroup (List.dropWhile isIdChar cs)).2).1).map strOf := by
        rw [← Option.some_inj.mp h]
      rcases matchValueGroup_fst
          (matchTypeGroup (List.dropWhile isIdChar cs)).2 with hn | ⟨u, hu⟩
      · left; rw [hval, hn]; rfl
      · right
        refine ⟨u.takeWhile (fun x => x ≠ '\x7b'), ?_, ?_⟩
        · rw [hval, hu]; rfl
        · intro hmem
          have hx := List.mem_takeWhile_imp hmem
          simp at hx
    · exact absurd h (by simp)

theorem renderVarDefault_ne_placeholder (v : List Char) (hv : '\x7b' ∉ v) :
    renderVarDefault (some (strOf v)) ≠ some " = \x7b ... \x7d" := by
  rw [renderVarDefault]
  by_cases hempty : strOf v = ""
  · simp [hempty]
  · have hlen : 0 < (strOf v).length := by
      rcases List.eq_nil_or_concat v with rfl | _
      · exact absurd rfl hempty
      · cases v with
        | nil => exact absurd rfl hempty
        | cons c cs => simp [strOf, String.length]
    rw [if_pos ⟨hempty, hlen⟩]
    intro heq
    have hdata : (" = ").data ++ pyStrip v = (" = ").data ++ ('\x7b' :: (" ... \x7d").data) := by
      have h1 : (" = " ++ strOf (pyStrip (strOf v).data)).data =
          (" = \x7b ... \x7d" : String).data :=
        congrArg String.data (Option.some_inj.mp heq)
      rw [String.data_append] at h1
      exact h1
    have : '\x7b' ∈ pyStrip v := by
      rw [List.append_cancel_left hdata]
      exact List.mem_cons_self _ _
    exact hv (mem_pyStrip _ _ this)

/-- C8 (code bug): on a variable signature whose `=` is followed only by a
`{`-opened body, the captured value is the empty string; because an empty
string is falsy, *both* rendering branches are skipped, so no default
annotation at all is produced — and the `' = { ... }'` placeholder branch
is unreachable for every input (its guard requires a truthy value after a
falsy-value test has already failed). -/
theorem c8_var_default_bug :
    (varHandleSignature none ("x = \x7b return 5 \x7d".data) =
      some ⟨"x", none, none, "x"⟩) ∧
    (∀ (container : Option String) (sig : List Char) (r : VarSignature),
      varHandleSignature container sig = some r →
      r.defaultAnn ≠ some " = \x7b ... \x7d") := by
  constructor
  · decide
  · intro container sig r h
    obtain ⟨m, hm, hr⟩ := Option.map_eq_some'.mp h
    subst hr
    show renderVarDefault m.value ≠ _
    rcases varSigMatch_value sig m hm with hnone | ⟨v, hv, hnb⟩
    · rw [hnone, renderVarDefault]
      simp
    · rw [hv]
      exact renderVarDefault_ne_placeholder v hnb

/-- C8 (witness): the unreachability statement applied at the concrete
computed-property signature. -/
theorem c8_witness :
    (⟨"x", none, none, "x"⟩ : VarSignature).defaultAnn ≠ some " = \x7b ... \x7d" :=
  c8_var_default_bug.2 none ("x = \x7b return 5 \x7d".data) _ c8_var_default_bug.1

/-! ### C4: generic-clause spanning -/

theorem pyFindCharN_lt_length {s : List Char} {t : Char} :
    ∀ {i : Nat}, pyFindCharN s t = some i → i < s.length := by
  induction s with
  | nil => intro i h; exact absurd h (by simp [pyFindCharN])
  | cons c cs ih =>
    intro i h
    rw [pyFindCharN] at h
    split at h
    · cases h; simp
    · obtain ⟨j, hj, rfl⟩ := Option.map_eq_some'.mp h
      have := ih hj
      simp only [List.length_cons]
      omega

theorem pyFindCharN_take {s : List Char} {t : Char} :
    ∀ {i k : Nat}, pyFindCharN s t = some i → i < k →
      pyFindCharN (s.take k) t = some i := by
  induction s with
  | nil => intro i k h _; exact absurd h (by simp [pyFindCharN])
  | cons c cs ih =>
    intro i k h hik
    rw [pyFindCharN] at h
    obtain ⟨k', rfl⟩ : ∃ k', k = k' + 1 := ⟨k - 1, by omega⟩
    rw [List.take_succ_cons, pyFindCharN]
    split at h
    · cases h
      rw [if_pos (by assumption)]
    · next hne =>
      obtain ⟨j, hj, rfl⟩ := Option.map_eq_some'.mp h
      rw [if_neg hne, ih hj (by omega)]
      rfl

theorem pyFindCharN_drop {t : Char} :
    ∀ (a : Nat) {s : List Char} {g : Nat}, pyFindCharN s t = some g → a ≤ g →
      pyFindCharN (s.drop a) t = some (g - a) := by
  intro a
  induction a with
  | zero => intro s g h _; simpa using h
  | succ a ih =>
    intro s g h hag
    cases s with
    | nil => exact absurd h (by simp [pyFindCharN])
    | cons c cs =>
      rw [pyFindCharN] at h
      split at h
      · cases h; omega
      · obtain ⟨j, hj, rfl⟩ := Option.map_eq_some'.mp h
        rw [List.drop_succ_cons]
        rw [show j + 1 - (a + 1) = j - a from by omega]
        exact ih hj (by omega)

theorem take_clamp (s : List Char) (n : Nat) : s.take (min n s.length) = s.take n := by
  by_cases h : n ≤ s.length
  · rw [Nat.min_eq_left h]
  · rw [Nat.min_eq_right (by omega), List.take_length,
      List.take_of_length_le (by omega)]

theorem drop_clamp (s : List Char) (n : Nat) : s.drop (min n s.length) = s.drop n := by
  by_cases h : n ≤ s.length
  · rw [Nat.min_eq_left h]
  · rw [Nat.min_eq_right (by omega), List.drop_length,
      List.drop_of_length_le (by omega)]

theorem pySliceTo_natCast (s : List Char) (n : Nat) :
    pySliceTo s (n : Int) = s.take n := by
  rw [pySliceTo, pyIdx, if_neg (by omega), show ((n : Int)).toNat = n from by omega]
  exact take_clamp s n

theorem pySliceFrom_natCast (s : List Char) (n : Nat) :
    pySliceFrom s (n : Int) = s.drop n := by
  rw [pySliceFrom, pyIdx, if_neg (by omega), show ((n : Int)).toNat = n from by omega]
  exact drop_clamp s n

/-- C4 (amended): when a `<` occurs (at index `a`) before the first `(` and
the *first* `>` of the signature sits at index `g` after it, the name span
ends just past that first `>` (`split_point = g + 1`, not the matching
closer), the generic clause is the text from the first `<` through the
first `>` inclusive, and the method name is the span truncated at its first
`<`. -/
theorem c4_generic_span (sig : List Char) (a p g : Nat)
    (ha : pyFindCharN sig '<' = some a) (hp : pyFindCharN sig '(' = some p)
    (hg : pyFindCharN sig '>' = some g) (hap : a < p) (hag : a < g) :
    (memberParse sig).split_point = (g : Int) + 1 ∧
    (memberParse sig).method_name = sig.take a ∧
    (memberParse sig).generics = some ((sig.drop a).take (g - a + 1)) := by
  have hglen : g < sig.length := pyFindCharN_lt_length hg
  have halen : a < sig.length := pyFindCharN_lt_length ha
  have hfa : pyFindChar sig '<' = (a : Int) := by rw [pyFindChar, ha]
  have hfp : pyFindChar sig '(' = (p : Int) := by rw [pyFindChar, hp]
  have hfg : pyFindChar sig '>' = (g : Int) := by rw [pyFindChar, hg]
  have hcast : (g : Int) + 1 = ((g + 1 : Nat) : Int) := by omega
  have hmn0 : pySliceTo sig (pyFindChar sig '>' + 1) = sig.take (g + 1) := by
    rw [hfg, hcast, pySliceTo_natCast]
  have hsp : pySliceFrom sig (pyFindChar sig '<') = sig.drop a := by
    rw [hfa, pySliceFrom_natCast]
  have hnp : pyFindCharN (sig.drop a) '>' = some (g - a) :=
    pyFindCharN_drop a hg (by omega)
  have hfnp : pyFindChar (sig.drop a) '>' = ((g - a : Nat) : Int) := by
    rw [pyFindChar, hnp]
  have hgen : pySliceTo (sig.drop a) (pyFindChar (sig.drop a) '>' + 1) =
      (sig.drop a).take (g - a + 1) := by
    rw [hfnp, show ((g - a : Nat) : Int) + 1 = ((g - a + 1 : Nat) : Int) from by omega,
      pySliceTo_natCast]
  have hcond : 0 ≤ pyFindChar sig '<' ∧ pyFindChar sig '<' < pyFindChar sig '(' := by
    rw [hfa, hfp]
    constructor
    · omega
    · exact_mod_cast hap
  have hmn : pyFindCharN (sig.take (g + 1)) '<' = some a :=
    pyFindCharN_take ha (by omega)
  rw [memberParse]
  split
  all_goals
    refine ⟨?_, ?_, ?_⟩
    · rw [if_pos hcond, hfg]
    · rw [if_pos hcond, hmn0, hmn]
      show List.take a (List.take (g + 1) sig) = List.take a sig
      rw [List.take_take, Nat.min_eq_left (by omega)]
    · show (if 0 ≤ pyFindChar sig '<' then
          let sp := pySliceFrom sig (pyFindChar sig '<')
          some (pySliceTo sp (pyFindChar sp '>' + 1))
        else none) = some (List.take (g - a + 1) (List.drop a sig))
      rw [if_pos (show (0 : Int) ≤ pyFindChar sig '<' from by rw [hfa]; omega)]
      show some (pySliceTo (pySliceFrom sig (pyFindChar sig '<'))
          (pyFindChar (pySliceFrom sig (pyFindChar sig '<')) '>' + 1)) =
        some (List.take (g - a + 1) (List.drop a sig))
      rw [hsp, hgen]

/-- C4 (witness): the amended theorem applied to `f<A<B>>(x: Int)`
(first `<` at 1, first `(` at 7, first `>` at 5). -/
theorem c4_witness :
    (memberParse ("f<A<B>>(x: Int)".data)).split_point = (5 : Nat) + 1 ∧
    (memberParse ("f<A<B>>(x: Int)".data)).method_name =
      ("f<A<B>>(x: Int)".data).take 1 ∧
    (memberParse ("f<A<B>>(x: Int)".data)).generics =
      some ((("f<A<B>>(x: Int)".data).drop 1).take (5 - 1 + 1)) :=
  c4_generic_span ("f<A<B>>(x: Int)".data) 1 7 5 (by decide) (by decide) (by decide)
    (by omega) (by omega)

/-! ### C9: module index ordering -/

theorem lex_append_cons_iff (p : List Char) (c d : Char) (r1 r2 : List Char) :
    (p ++ c :: r1) < (p ++ d :: r2) ↔ (c < d ∨ (c = d ∧ r1 < r2)) := by
  induction p with
  | nil =>
    simp only [List.nil_append]
    constructor
    · intro h
      cases h with
      | cons h => exact Or.inr ⟨rfl, h⟩
      | rel h => exact Or.inl h
    · rintro (h | ⟨rfl, h⟩)
      · exact List.Lex.rel h
      · exact List.Lex.cons h
  | cons e p ih =>
    simp only [List.cons_append]
    constructor
    · intro h
      cases h with
      | cons h => exact ih.mp h
      | rel h => exact absurd h (lt_irrefl e)
    · intro h
      exact List.Lex.cons (ih.mpr h)

theorem findIdx?_some_lt_aux (f : String → Bool) :
    ∀ (l : List String) (start i : Nat), List.findIdx? f l start = some i →
      i < start + l.length := by
  intro l
  induction l with
  | nil => intro start i h; exact absurd h (by simp)
  | cons a t ih =>
    intro start i h
    rw [List.findIdx?] at h
    split at h
    · cases h; simp
    · have := ih (start + 1) i h
      simp only [List.length_cons]
      omega

theorem findIdx?_some_lt (f : String → Bool) (i : Nat)
    (h : type_order.findIdx? f = some i) : i < 5 := by
  have := findIdx?_some_lt_aux f type_order 0 i h
  simpa [type_order] using this

theorem digit_data (k : Nat) (hk : k < 5) :
    (toString k).data = [Char.ofNat (48 + k)] := by
  interval_cases k <;> rfl

theorem digit_lt_iff (i j : Nat) (hi : i < 5) (hj : j < 5) :
    Char.ofNat (48 + i) < Char.ofNat (48 + j) ↔ i < j := by
  interval_cases i <;> interval_cases j <;> simp

theorem digit_eq_iff (i j : Nat) (hi : i < 5) (hj : j < 5) :
    Char.ofNat (48 + i) = Char.ofNat (48 + j) ↔ i = j := by
  interval_cases i <;> interval_cases j <;> simp

theorem key_data_lt_iff (i j : Nat) (hi : i < 5) (hj : j < 5) (r1 r2 : List Char) :
    ("000".data ++ (toString i).data ++ r1) < ("000".data ++ (toString j).data ++ r2) ↔
      (i < j ∨ (i = j ∧ r1 < r2)) := by
  rw [digit_data i hi, digit_data j hj, List.append_assoc, List.append_assoc,
    List.singleton_append, List.singleton_append, lex_append_cons_iff,
    digit_lt_iff i j hi hj, digit_eq_iff i j hi hj]

/-- C9 (counterexample): the parenthetical "unknown kinds ranking last" fails:
an entry whose refname starts with a character below `'0'` (here the operator
key `"!op"`, which starts with no kind keyword) sorts *before* the
digit-prefixed known-kind keys inside its bucket, so the unknown kind comes
first, not last. -/
theorem c9_counterexample :
    generate [⟨"class !X", "doc1", "class !X"⟩, ⟨"!op", "doc1", "!op"⟩] =
      some [(some '!',
        [⟨"!op", "doc1", "!op"⟩, ⟨"class !X", "doc1", "class !X"⟩])] := by
  decide

/-- C9 (amended): the claimed example buckets and orders exactly as stated
(`A: [class Apple, struct Apple]`, `B: [class Banana]`, `class` before
`struct`); within a bucket two known-kind entries compare by kind rank first
and then alphabetically by name; and a known-kind entry sorts before an
unknown-kind entry whenever the latter's name starts with a letter or
underscore (the "unknown kinds last" rule holds only for such names — see
the counterexample for names starting below `'0'`). -/
theorem c9_module_index :
    (generate [⟨"class Apple", "doc1", "class Apple"⟩,
               ⟨"struct Apple", "doc1", "struct Apple"⟩,
               ⟨"class Banana", "doc1", "class Banana"⟩] =
      some [(some 'A', [⟨"class Apple", "doc1", "class Apple"⟩,
                        ⟨"struct Apple", "doc1", "struct Apple"⟩]),
            (some 'B', [⟨"class Banana", "doc1", "class Banana"⟩])]) ∧
    (∀ (e1 e2 : IndexEntry) (i1 i2 : Nat),
      type_order.findIdx? (fun t => t.data.isPrefixOf e1.refname.data) = some i1 →
      type_order.findIdx? (fun t => t.data.isPrefixOf e2.refname.data) = some i2 →
      ((indexsorterKey e1).data < (indexsorterKey e2).data ↔
        (i1 < i2 ∨ (i1 = i2 ∧ e1.refname.data < e2.refname.data)))) ∧
    (∀ (e1 e2 : IndexEntry) (i1 : Nat) (c : Char),
      type_order.findIdx? (fun t => t.data.isPrefixOf e1.refname.data) = some i1 →
      type_order.findIdx? (fun t => t.data.isPrefixOf e2.refname.data) = none →
      e2.refname.data.head? = some c → (c.isAlpha = true ∨ c = '_') →
      (indexsorterKey e1).data < (indexsorterKey e2).data) := by
  refine ⟨by decide, ?_, ?_⟩
  · intro e1 e2 i1 i2 h1 h2
    have hi1 : i1 < 5 := findIdx?_some_lt _ i1 h1
    have hi2 : i2 < 5 := findIdx?_some_lt _ i2 h2
    rw [indexsorterKey, h1, indexsorterKey, h2, String.data_append, String.data_append,
      String.data_append, String.data_append]
    exact key_data_lt_iff i1 i2 hi1 hi2 _ _
  · intro e1 e2 i1 c h1 h2 hc halpha
    have hi1 : i1 < 5 := findIdx?_some_lt _ i1 h1
    rw [indexsorterKey, h1, indexsorterKey, h2, String.data_append, String.data_append]
    cases hr2 : e2.refname.data with
    | nil => rw [hr2] at hc; exact absurd hc (by simp)
    | cons c' rest =>
      rw [hr2] at hc
      have hcc : c' = c := by
        simpa using hc
      subst hcc
      have hzero : '0' < c' := by
        rcases halpha with halpha | rfl
        · rw [Char.lt_def]
          simp only [Char.isAlpha, Char.isUpper, Char.isLower, Bool.or_eq_true,
            Bool.and_eq_true, decide_eq_true_eq] at halpha
          rcases halpha with ⟨h1', _⟩ | ⟨h1', _⟩
          · exact Nat.lt_of_lt_of_le
              (show ('0' : Char).val.toNat < (65 : UInt32).toNat from by decide) h1'
          · exact Nat.lt_of_lt_of_le
              (show ('0' : Char).val.toNat < (97 : UInt32).toNat from by decide) h1'
        · decide
      show ("000".data ++ (toString i1).data ++ e1.refname.data) < (c' :: rest)
      rw [digit_data i1 hi1]
      exact List.Lex.rel hzero

/-- C9 (witness): the rank characterization applied to `class Apple` (rank 0)
versus `struct Apple` (rank 1). -/
theorem c9_witness :
    ((indexsorterKey ⟨"class Apple", "doc1", "class Apple"⟩).data <
        (indexsorterKey ⟨"struct Apple", "doc1", "struct Apple"⟩).data ↔
      (0 < 1 ∨ (0 = 1 ∧
        (⟨"class Apple", "doc1", "class Apple"⟩ : IndexEntry).refname.data <
          (⟨"struct Apple", "doc1", "struct Apple"⟩ : IndexEntry).refname.data))) :=
  c9_module_index.2.1 ⟨"class Apple", "doc1", "class Apple"⟩
    ⟨"struct Apple", "doc1", "struct Apple"⟩ 0 1 (by decide) (by decide)

end Swift
